/-
Verification development for the suno2cd batch audio conversion pipeline.

The definitions below are a shallow embedding of the TypeScript source
(src/converter.ts and src/main.ts).  JavaScript string primitives used by the
source (`slice` with negative indices, `lastIndexOf` returning -1,
`includes`, `startsWith`, `toLowerCase`) are modelled by `js*` helpers with
JavaScript semantics.  Percent values are modelled as exact rationals
(JavaScript numbers on these small integer-valued computations behave
exactly), and `Math.round` as floor (x + 1/2), which is JavaScript's
round-half-up.  The FFmpeg engine is opaque to the program, so one engine
invocation is modelled by the data the program observes from it: the exit
code of `exec`, the list of fractional progress events it emits during
`exec`, and the bytes `readFile` returns.
-/
import Mathlib

namespace Suno2CD

/-! ### JavaScript string primitives -/

/-- JS `String.prototype.lastIndexOf` for a single character, on a char list:
returns the last index at which the character occurs, or -1. -/
def jsLastIndexOfAux (c : Char) : List Char → Int
  | [] => -1
  | x :: xs =>
    let r := jsLastIndexOfAux c xs
    if r ≥ 0 then r + 1
    else if x = c then 0 else -1

/-- JS `s.lastIndexOf(c)`. -/
def jsLastIndexOf (s : String) (c : Char) : Int :=
  jsLastIndexOfAux c s.data

/-- Clamp a JS slice index into [0, len]: negative indices count from the
end, positive ones are capped at the length. -/
def jsClampIndex (len : ℕ) (i : Int) : ℕ :=
  if i < 0 then (max ((len : Int) + i) 0).toNat else min i.toNat len

/-- JS `s.slice(start)` (one-argument form). -/
def jsSlice1 (s : String) (start : Int) : String :=
  (s.data.drop (jsClampIndex s.data.length start)).asString

/-- JS `s.slice(start, finish)` (two-argument form). -/
def jsSlice2 (s : String) (start finish : Int) : String :=
  let b := jsClampIndex s.data.length start
  let e := jsClampIndex s.data.length finish
  ((s.data.drop b).take (e - b)).asString

/-- JS `s.includes(c)` for a single-character needle. -/
def jsIncludesChar (s : String) (c : Char) : Bool :=
  s.data.contains c

/-- JS `s.startsWith(p)`. -/
def jsStartsWith (s p : String) : Bool :=
  p.data.isPrefixOf s.data

/-- JS `s.toLowerCase()` (simple case mapping). -/
def jsToLowerCase (s : String) : String :=
  (s.data.map Char.toLower).asString

/-- JS `Math.round`: round half toward positive infinity. -/
def jsRound (q : ℚ) : ℤ :=
  ⌊q + 1 / 2⌋

/-! ### JS `Map<string, number>` as an insertion-ordered association list -/

/-- JS `map.get(key)` (`undefined` becomes `none`). -/
def mapGet : List (String × ℕ) → String → Option ℕ
  | [], _ => none
  | (k, v) :: rest, key => if k = key then some v else mapGet rest key

/-- JS `map.set(key, v)`: replace in place if present, else append. -/
def mapSet : List (String × ℕ) → String → ℕ → List (String × ℕ)
  | [], key, v => [(key, v)]
  | (k, w) :: rest, key, v =>
    if k = key then (key, v) :: rest else (k, w) :: mapSet rest key v

/-! ### Data model -/

/-- A user-selected file as the program sees it: `name`, declared media
type (`mime`, the JS `file.type`), and raw byte content. -/
structure SimFile where
  name : String
  mime : String
  bytes : List ℕ
deriving Repr, DecidableEq

/-- What the program observes from one engine invocation: the `exec` exit
code, the fractional progress events streamed during `exec`, and the bytes
`readFile` returns for the output file. -/
structure EngineBehavior where
  exitCode : ℤ
  fracs : List ℚ
  output : List ℕ
deriving Repr, DecidableEq

/-- `ConversionResult` from converter.ts: the output blob (bytes plus MIME
tag), the disambiguated display filename, and the unmodified source name. -/
structure ConversionResult where
  blob : List ℕ
  blobType : String
  filename : String
  originalName : String
deriving Repr, DecidableEq

/-! ### converter.ts: isAudioFile, formatBytes helpers -/

/-- The audio extension allowlist from `isAudioFile`. -/
def audioExtensions : List String :=
  [".mp3", ".wav", ".flac", ".ogg", ".m4a", ".aac", ".wma", ".aiff"]

/-- `isAudioFile` (converter.ts): extension is taken by slicing the
lowercased name from `name.lastIndexOf('.')` (which is -1 when the name has
no dot, so the slice then keeps only the final character). -/
def isAudioFile (file : SimFile) : Bool :=
  let ext := jsSlice1 (jsToLowerCase file.name) (jsLastIndexOf file.name '.')
  jsStartsWith file.mime "audio/" || audioExtensions.contains ext

/-! ### converter.ts: filename resolver -/

/-- The `base` computed inside `getUniqueFilename`: everything before the
last dot, or the whole name when there is no dot. -/
def resolverBase (desiredName : String) : String :=
  let lastDot := jsLastIndexOf desiredName '.'
  if lastDot ≥ 0 then jsSlice2 desiredName 0 lastDot else desiredName

/-- The `ext` computed inside `getUniqueFilename`: the last dot and
everything after it, or the empty string when there is no dot. -/
def resolverExt (desiredName : String) : String :=
  let lastDot := jsLastIndexOf desiredName '.'
  if lastDot ≥ 0 then jsSlice1 desiredName lastDot else ""

/-- `getUniqueFilename` (converter.ts): stateful over the module-level
`usedOutputNames` map, returned here explicitly.  A first occurrence is
returned unchanged with count 1 recorded; a repeat with recorded count `c`
returns `base ++ " (" ++ repr (c+1) ++ ")" ++ ext` and records `c+1`. -/
def getUniqueFilename (used : List (String × ℕ)) (desiredName : String) :
    String × List (String × ℕ) :=
  let count := (mapGet used desiredName).getD 0
  if count = 0 then
    (desiredName, mapSet used desiredName 1)
  else
    (resolverBase desiredName ++ " (" ++ Nat.repr (count + 1) ++ ")" ++ resolverExt desiredName,
      mapSet used desiredName (count + 1))

/-- Feeding a sequence of desired names through `getUniqueFilename` in
order, threading the `usedOutputNames` map. -/
def resolveAll (used : List (String × ℕ)) : List String → List String × List (String × ℕ)
  | [] => ([], used)
  | d :: rest =>
    let r := getUniqueFilename used d
    let r2 := resolveAll r.2 rest
    (r.1 :: r2.1, r2.2)

deriving instance DecidableEq for Except

/-! ### converter.ts: the per-conversion progress handler

`convertToCDQuality` installs a handler on the engine's `progress` events:
`pct = 10 + Math.round(progress * 80)`, forwarded only when
`pct > lastProgress`; `lastProgress` starts at 10 and is updated only when
the handler forwards. -/

/-- Run the `progress` handler over the fractions the engine emits during
`exec`, starting from the given `lastProgress` value.  Returns the list of
forwarded `onProgress` calls and the final `lastProgress`. -/
def runProgressHandler (lastProgress : ℚ) : List ℚ → List (ℚ × String) × ℚ
  | [] => ([], lastProgress)
  | p :: rest =>
    let pct : ℚ := 10 + (jsRound (p * 80) : ℤ)
    if lastProgress < pct then
      let r := runProgressHandler pct rest
      ((pct, "Converting: " ++ toString (jsRound (p * 100)) ++ "%") :: r.1, r.2)
    else
      runProgressHandler lastProgress rest

/-- Just the forwarded percent values of the handler started at 10 (its
initial `lastProgress`). -/
def forwardedPcts (fracs : List ℚ) : List ℚ :=
  ((runProgressHandler 10 fracs).1).map Prod.fst

/-! ### converter.ts: convertToCDQuality -/

/-- The internal virtual-filesystem input name:
`input_${uniqueId}${inputExt}`. -/
def mkInputName (uniqueId : ℕ) (inputExt : String) : String :=
  "input_" ++ Nat.repr uniqueId ++ inputExt

/-- The internal virtual-filesystem output name: `output_${uniqueId}.wav`. -/
def mkOutputName (uniqueId : ℕ) : String :=
  "output_" ++ Nat.repr uniqueId ++ ".wav"

/-- `inputExt` from `convertToCDQuality`: the name's last extension
(including the dot) when the name contains a dot, else the empty string. -/
def inputExtOf (name : String) : String :=
  if jsIncludesChar name '.' then jsSlice1 name (jsLastIndexOf name '.') else ""

/-- The model of the JS regex replace `name.replace(/\.[^\/.]+$/, '')`:
strip the last dot and what follows it, provided that suffix is nonempty
and contains no slash (it can contain no further dot, being after the last
dot, so only the slash test is explicit here). -/
def stripExtRegex (s : String) : String :=
  let i := jsLastIndexOf s '.'
  if i ≥ 0 then
    let suffix := s.data.drop (i.toNat + 1)
    if suffix.isEmpty then s
    else if suffix.contains '/' then s
    else (s.data.take i.toNat).asString
  else s

/-- The error message thrown when `exec` reports a non-zero exit code. -/
def ffmpegFailedMsg (name : String) (exitCode : ℤ) : String :=
  "FFmpeg failed for \"" ++ name ++ "\" (exit code: " ++ toString exitCode ++ ")"

/-- The error thrown when `convertToCDQuality` is called before `loadFFmpeg`. -/
def notLoadedMsg : String :=
  "FFmpeg not loaded. Call loadFFmpeg() first."

/-- Everything one call to `convertToCDQuality` does that the caller or the
engine can observe: the `onProgress` calls in order, the virtual files
written and deleted (in order), how many times the progress handler was
unsubscribed (`ffmpeg.off`), the generated internal names, the resolved
display name, and the returned result or thrown error message. -/
structure UnitTrace where
  progress : List (ℚ × String) := []
  writes : List String := []
  deletes : List String := []
  offCalls : ℕ := 0
  names : Option (String × String) := none
  displayName : Option String := none
  result : Except String ConversionResult
deriving Repr, DecidableEq

/-- `convertToCDQuality` (converter.ts, current version).  State threaded
explicitly: the module-level `loaded` flag, `fileCounter`, and
`usedOutputNames` map; returns the trace plus the updated counter and map.

Control flow of the source: throw if not loaded; take `uniqueId` from the
counter; build internal names and the resolved display name (this consults
and updates `usedOutputNames` before any engine call); emit 10%; write the
input file; emit 15%; run `exec` (handler events stream here); throw if the
exit code is non-zero (the `finally` then only unsubscribes the handler);
otherwise emit 90%, read the output, delete both virtual files, emit 100%,
and return the result envelope. -/
def convertToCDQuality (loaded : Bool) (fileCounter : ℕ)
    (usedOutputNames : List (String × ℕ)) (file : SimFile) (eng : EngineBehavior) :
    UnitTrace × ℕ × List (String × ℕ) :=
  if loaded = false then
    ({ result := .error notLoadedMsg }, fileCounter, usedOutputNames)
  else
    let uniqueId := fileCounter + 1
    let inputName := mkInputName uniqueId (inputExtOf file.name)
    let outputName := mkOutputName uniqueId
    let baseName := stripExtRegex file.name
    let desiredDisplayName := baseName ++ ".wav"
    let resolved := getUniqueFilename usedOutputNames desiredDisplayName
    let preExec : List (ℚ × String) :=
      (10, "Loading " ++ file.name ++ "...")
        :: (15, "Converting to 44.1kHz 16-bit stereo WAV...")
        :: (runProgressHandler 10 eng.fracs).1
    if eng.exitCode ≠ 0 then
      ({ progress := preExec
         writes := [inputName]
         deletes := []
         offCalls := 1
         names := some (inputName, outputName)
         displayName := some resolved.1
         result := .error (ffmpegFailedMsg file.name eng.exitCode) },
        uniqueId, resolved.2)
    else
      ({ progress := preExec ++ [(90, "Reading output..."), (100, "Done")]
         writes := [inputName]
         deletes := [inputName, outputName]
         offCalls := 1
         names := some (inputName, outputName)
         displayName := some resolved.1
         result := .ok { blob := eng.output, blobType := "audio/wav",
                         filename := resolved.1, originalName := file.name } },
        uniqueId, resolved.2)

/-- A process-wide sequence of `convertToCDQuality` invocations with the
engine loaded, threading `fileCounter` and `usedOutputNames`.  Models any
number of callers taking ids from the shared counter: the JS `++fileCounter`
is a synchronous read-modify-write, so even interleaved (concurrent)
callers observe this same id sequence. -/
def runUnits (fileCounter : ℕ) (used : List (String × ℕ)) :
    List (SimFile × EngineBehavior) → List UnitTrace
  | [] => []
  | (f, e) :: rest =>
    let r := convertToCDQuality true fileCounter used f e
    r.1 :: runUnits r.2.1 r.2.2 rest

/-! ### converter.ts: checkBrowserSupport and loadFFmpeg -/

/-- The runtime environment facts `checkBrowserSupport` probes: whether
`WebAssembly` is defined, whether `crossOriginIsolated` is defined and its
value, whether `SharedArrayBuffer` is defined, and `location`'s hostname
and protocol. -/
structure Env where
  wasmDefined : Bool
  coiDefined : Bool
  coi : Bool
  sabDefined : Bool
  hostname : String
  protocol : String
deriving Repr, DecidableEq

/-- The record `checkBrowserSupport` returns (`needsReload` defaults to
absent/false). -/
structure SupportResult where
  supported : Bool
  message : String
  needsReload : Bool := false
deriving Repr, DecidableEq

/-- `checkBrowserSupport` (converter.ts, current version). -/
def checkBrowserSupport (env : Env) : SupportResult :=
  if env.wasmDefined = false then
    { supported := false
      message := "Your browser does not support WebAssembly. Please use a modern browser." }
  else if env.coiDefined && env.coi then
    { supported := true, message := "" }
  else if env.sabDefined then
    { supported := true, message := "" }
  else if env.hostname = "localhost" ∨ env.hostname = "127.0.0.1" ∨ env.protocol = "file:" then
    { supported := false
      message := "SharedArrayBuffer requires specific server headers. Try running with: bunx vite --host" }
  else
    { supported := false
      needsReload := true
      message := "Preparing secure context... If this persists, please refresh the page." }

/-- The CDN base URL `loadFFmpeg` fetches the engine from. -/
def ffmpegBaseURL : String :=
  "https://cdn.jsdelivr.net/npm/@ffmpeg/core@0.12.10/dist/esm"

/-- `updateProgress` inside `loadFFmpeg`: from the current download state
(core received/total, wasm received/total), emit one progress event when
the combined total is known to be positive.  The source renders the byte
counts as "X.X / Y.Y MB" via float `toFixed(1)`; that display string is
abstracted here to the raw byte counts, which is the only content of the
label. -/
def loadDownloadEvent (cr ct wr wt : ℕ) : List (ℚ × String) :=
  let totalBytes := ct + wt
  let receivedBytes := cr + wr
  if 0 < totalBytes then
    [((receivedBytes : ℚ) / (totalBytes : ℚ) * 100,
      "Downloading: " ++ Nat.repr receivedBytes ++ " / " ++ Nat.repr totalBytes ++ " bytes")]
  else []

/-- The events emitted while the core JS resource downloads: each callback
overwrites the core (received, total) state; the wasm state is still
(0, 0). -/
def coreDownloadEvents : List (ℕ × ℕ) → List (ℚ × String)
  | [] => []
  | (r, t) :: rest => loadDownloadEvent r t 0 0 ++ coreDownloadEvents rest

/-- The events emitted while the wasm resource downloads, after the core
download finished in state `coreFinal`. -/
def wasmDownloadEvents (coreFinal : ℕ × ℕ) : List (ℕ × ℕ) → List (ℚ × String)
  | [] => []
  | (r, t) :: rest =>
    loadDownloadEvent coreFinal.1 coreFinal.2 r t ++ wasmDownloadEvents coreFinal rest

/-- Everything one call to `loadFFmpeg` does that the caller can observe:
the `onProgress` events, the URLs fetched, the `loaded` flag afterwards,
and success or the thrown error message. -/
structure LoadTrace where
  events : List (ℚ × String) := []
  fetches : List String := []
  loadedAfter : Bool
  result : Except String Unit
deriving Repr, DecidableEq

/-- `loadFFmpeg` (converter.ts, current version).  The `core` and `wasm`
arguments are the (received, total) byte states at each download-progress
callback of the two fetches (the core JS file downloads first, then the
wasm binary).  If already loaded it returns at once; if the support check
fails it throws before fetching or emitting anything; otherwise it emits
the initial 0% event, the download events, a 100% "Initializing" event,
initializes the engine, sets `loaded`, and emits 100% "FFmpeg ready". -/
def loadFFmpeg (loaded : Bool) (env : Env) (core wasm : List (ℕ × ℕ)) : LoadTrace :=
  if loaded then
    { events := [], fetches := [], loadedAfter := true, result := .ok () }
  else
    let support := checkBrowserSupport env
    if support.supported = false then
      { events := [], fetches := [], loadedAfter := false, result := .error support.message }
    else
      { events := (0, "Downloading FFmpeg core...")
            :: (coreDownloadEvents core ++ wasmDownloadEvents (core.getLastD (0, 0)) wasm
                ++ [(100, "Initializing FFmpeg..."), (100, "FFmpeg ready")])
        fetches := [ffmpegBaseURL ++ "/ffmpeg-core.js", ffmpegBaseURL ++ "/ffmpeg-core.wasm"]
        loadedAfter := true
        result := .ok () }

/-! ### main.ts: startConversion (the batch orchestrator) -/

/-- The per-file progress remapping from `startConversion`: file `i` of
`n` occupies the window starting at `30 + (i/n)*70` of width `70/n`, and a
unit-local percent `pct` lands at `base + (pct/100)*(70/n)`. -/
def overallPct (n i : ℕ) (pct : ℚ) : ℚ :=
  30 + (i : ℚ) / (n : ℚ) * 70 + pct / 100 * (70 / (n : ℚ))

/-- The `subtext` label of the per-file progress callback. -/
def fileSubtext (n i : ℕ) : String :=
  "File " ++ Nat.repr (i + 1) ++ " of " ++ Nat.repr n

/-- Everything one `startConversion` run does that the user can observe:
the `updateProgress` calls (percent, text, subtext) in order, the names of
the files actually passed to `convertToCDQuality`, the results passed to
`showResults` (none when it was never called), the overall outcome, and
the process-wide `fileCounter` afterwards. -/
structure BatchTrace where
  overall : List (ℚ × String × String) := []
  attempted : List String := []
  shown : Option (List ConversionResult) := none
  result : Except String (List ConversionResult)
  counterAfter : ℕ
deriving Repr, DecidableEq

/-- The conversion loop of `startConversion`: files are processed strictly
in order with `fileCounter` and `usedOutputNames` threaded through; each
unit's `onProgress` calls are remapped into the file's window; the first
unit error aborts the loop (the `catch` then emits the
`(0, "Conversion failed", message)` update); if all units succeed the
results are collected in order. -/
def runFiles (n : ℕ) (fileCounter : ℕ) (used : List (String × ℕ)) (i : ℕ) :
    List (SimFile × EngineBehavior) →
      List (ℚ × String × String) × List String × ℕ × Except String (List ConversionResult)
  | [] => ([], [], fileCounter, .ok [])
  | (f, eng) :: rest =>
    let r := convertToCDQuality true fileCounter used f eng
    let mapped := r.1.progress.map fun e => (overallPct n i e.1, e.2, fileSubtext n i)
    match r.1.result with
    | .error msg =>
        (mapped ++ [(0, "Conversion failed", msg)], [f.name], r.2.1, .error msg)
    | .ok res =>
        let rec2 := runFiles n r.2.1 r.2.2 (i + 1) rest
        (mapped ++ rec2.1, f.name :: rec2.2.1, rec2.2.2.1, rec2.2.2.2.map (res :: ·))

/-- `startConversion` (main.ts).  Arguments: the UI's `ffmpegLoaded` flag
(true only after a previous successful load, so the converter module's
`loaded` flag agrees with it), the environment and download schedules for
a first-time engine load, the process-wide `fileCounter`, and the selected
files paired with the engine behavior each will observe.

The run starts with the `(0, "Initializing FFmpeg...")` update and a
`resetFilenameTracking()` (the `usedOutputNames` map starts empty).  A
first-time engine load has its events scaled onto the first 30% of the
overall scale; a load error is caught like a conversion error.  On success
of the whole loop the results are shown; the loop itself is `runFiles`. -/
def startConversion (ffmpegLoaded : Bool) (env : Env) (core wasm : List (ℕ × ℕ))
    (fileCounter : ℕ) (files : List (SimFile × EngineBehavior)) : BatchTrace :=
  if files.isEmpty then
    { overall := [], attempted := [], shown := none, result := .ok [], counterAfter := fileCounter }
  else
    let init : List (ℚ × String × String) :=
      [(0, "Initializing FFmpeg...", "Loading audio processing engine")]
    let lt := loadFFmpeg ffmpegLoaded env core wasm
    match lt.result with
    | .error msg =>
        { overall := init ++ [(0, "Conversion failed", msg)]
          attempted := []
          shown := none
          result := .error msg
          counterAfter := fileCounter }
    | .ok _ =>
        let scaled := lt.events.map fun e => (e.1 * 0.3, e.2, "First-time download (~31 MB)")
        let r := runFiles files.length fileCounter [] 0 files
        match r.2.2.2 with
        | .error msg =>
            { overall := init ++ scaled ++ r.1
              attempted := r.2.1
              shown := none
              result := .error msg
              counterAfter := r.2.2.1 }
        | .ok results =>
            { overall := init ++ scaled ++ r.1
              attempted := r.2.1
              shown := some results
              result := .ok results
              counterAfter := r.2.2.1 }

/-! ### Helper lemmas -/

theorem jsLastIndexOfAux_of_not_mem {c : Char} {l : List Char} (h : c ∉ l) :
    jsLastIndexOfAux c l = -1 := by
  induction l with
  | nil => rfl
  | cons x xs ih =>
    have hx : x ≠ c := fun hxc => h (hxc ▸ List.mem_cons_self x xs)
    have hxs : c ∉ xs := fun hm => h (List.mem_cons_of_mem x hm)
    simp [jsLastIndexOfAux, ih hxs, hx]

theorem jsLastIndexOf_of_not_mem {c : Char} {s : String} (h : c ∉ s.data) :
    jsLastIndexOf s c = -1 :=
  jsLastIndexOfAux_of_not_mem h

theorem data_asString (l : List Char) : (l.asString).data = l := rfl

theorem jsSlice1_neg_one_length (s : String) : (jsSlice1 s (-1)).data.length ≤ 1 := by
  unfold jsSlice1 jsClampIndex
  simp only [data_asString, List.length_drop]
  split
  · omega
  · omega

theorem jsToLowerCase_length (s : String) :
    (jsToLowerCase s).data.length = s.data.length := by
  simp [jsToLowerCase, data_asString]

/-! ### C2 resolver lemmas -/

theorem getUniqueFilename_fresh (name : String) :
    getUniqueFilename [] name = (name, [(name, 1)]) := by
  simp [getUniqueFilename, mapGet, mapSet]

theorem getUniqueFilename_repeat (name : String) (c : ℕ) (hc : c ≠ 0) :
    getUniqueFilename [(name, c)] name
      = (resolverBase name ++ " (" ++ Nat.repr (c + 1) ++ ")" ++ resolverExt name,
        [(name, c + 1)]) := by
  simp [getUniqueFilename, mapGet, mapSet, hc]

theorem resolveAll_replicate_repeat (name : String) (m : ℕ) :
    ∀ c : ℕ, c ≠ 0 →
      (resolveAll [(name, c)] (List.replicate m name)).1
        = (List.range m).map
            (fun k => resolverBase name ++ " (" ++ Nat.repr (c + k + 1) ++ ")" ++ resolverExt name) := by
  induction m with
  | zero => intro c _; simp [resolveAll]
  | succ m ih =>
    intro c hc
    rw [List.replicate_succ]
    simp only [resolveAll, getUniqueFilename_repeat name c hc]
    rw [ih (c + 1) (by omega)]
    rw [List.range_succ_eq_map]
    simp only [List.map_cons, List.map_map]
    congr 1
    apply List.map_congr_left
    intro k _
    have h3 : c + 1 + k + 1 = c + (k + 1) + 1 := by omega
    rw [h3]
    rfl

theorem mkInputName_ne_mkOutputName (a b : ℕ) (e : String) :
    mkInputName a e ≠ mkOutputName b := by
  intro hEq
  have hd := congrArg String.data hEq
  simp only [mkInputName, mkOutputName, String.data_append] at hd
  simp only [List.cons_append, List.cons.injEq] at hd
  exact absurd hd.1 (by decide)

theorem audioExtensions_min_length (e : String) (he : e ∈ audioExtensions) :
    4 ≤ e.data.length := by
  simp only [audioExtensions, List.mem_cons, List.not_mem_nil, or_false] at he
  rcases he with rfl | rfl | rfl | rfl | rfl | rfl | rfl | rfl <;> decide

/-! ### Claim C1 (corrected) -/

/-- C1 counterexample: the claim says the input and output virtual files
are deleted on every exit path of `convertToCDQuality`.  On the failure
path this is false: with an engine exit code of 1 the call throws, and its
delete log is empty — neither virtual file is deleted (the `deleteFile`
calls sit on the success path after `readFile`, not in the `finally`,
which only unsubscribes the progress handler). -/
theorem C1_counterexample :
    ((convertToCDQuality true 0 [] ⟨"a.mp3", "audio/mpeg", [1]⟩ ⟨1, [], []⟩).1.result
      = .error (ffmpegFailedMsg "a.mp3" 1)) ∧
    ((convertToCDQuality true 0 [] ⟨"a.mp3", "audio/mpeg", [1]⟩ ⟨1, [], []⟩).1.deletes = []) := by
  constructor <;> rfl

/-- C1 amended: on the success path `convertToCDQuality` deletes exactly
its two (distinct) virtual files, once each; on the failure path (non-zero
exit code) it deletes nothing; only the progress-handler unsubscription
(`ffmpeg.off`, counted by `offCalls`) runs unconditionally on both paths. -/
theorem C1_cleanup_amended (fileCounter : ℕ) (used : List (String × ℕ))
    (file : SimFile) (eng : EngineBehavior) :
    ((convertToCDQuality true fileCounter used file eng).1.offCalls = 1) ∧
    (eng.exitCode = 0 →
      (convertToCDQuality true fileCounter used file eng).1.deletes
          = [mkInputName (fileCounter + 1) (inputExtOf file.name),
             mkOutputName (fileCounter + 1)]
        ∧ mkInputName (fileCounter + 1) (inputExtOf file.name)
            ≠ mkOutputName (fileCounter + 1)) ∧
    (eng.exitCode ≠ 0 →
      (convertToCDQuality true fileCounter used file eng).1.deletes = []) := by
  refine ⟨?_, fun he => ⟨?_, mkInputName_ne_mkOutputName _ _ _⟩, fun he => ?_⟩
  · by_cases he : eng.exitCode = 0 <;> simp [convertToCDQuality, he]
  · simp [convertToCDQuality, he]
  · simp [convertToCDQuality, he]

/-- C1 amended, witnessed at a successful run (exit code 0) and at a
failing run (exit code 1). -/
theorem C1_cleanup_amended_witness :
    ((convertToCDQuality true 0 [] ⟨"a.mp3", "audio/mpeg", [1]⟩ ⟨0, [], [7]⟩).1.deletes
        = [mkInputName 1 (inputExtOf "a.mp3"), mkOutputName 1]) ∧
    ((convertToCDQuality true 0 [] ⟨"a.mp3", "audio/mpeg", [1]⟩ ⟨1, [], []⟩).1.deletes = []) :=
  ⟨((C1_cleanup_amended 0 [] ⟨"a.mp3", "audio/mpeg", [1]⟩ ⟨0, [], [7]⟩).2.1 rfl).1,
    (C1_cleanup_amended 0 [] ⟨"a.mp3", "audio/mpeg", [1]⟩ ⟨1, [], []⟩).2.2 (by decide)⟩

/-! ### Claim C2 (corrected) -/

/-- C2 counterexample: feeding `["a.wav", "a.wav", "a.wav"]` through the
resolver yields `["a.wav", "a (2).wav", "a (3).wav"]`, not the claimed
`["a.wav", "a (1).wav", "a (2).wav"]`: the Nth occurrence (N ≥ 2) gets
suffix `(N)`, not `(N-1)`, because the code appends `count + 1` where
`count` is the number of earlier occurrences. -/
theorem C2_counterexample :
    (resolveAll [] ["a.wav", "a.wav", "a.wav"]).1 = ["a.wav", "a (2).wav", "a (3).wav"] ∧
    (resolveAll [] ["a.wav", "a.wav", "a.wav"]).1 ≠ ["a.wav", "a (1).wav", "a (2).wav"] := by
  constructor <;> decide

/-- C2 amended: the first occurrence of a desired name is returned
unchanged, and the Nth repeat (N ≥ 2) returns `"<base> (N)<ext>"` — with
base/ext split at the last dot of the desired name — stated here for any
desired name repeated any number of times from a fresh registry. -/
theorem C2_resolver_amended (name : String) (n : ℕ) :
    (resolveAll [] (List.replicate (n + 1) name)).1
      = name :: (List.range n).map
          (fun k => resolverBase name ++ " (" ++ Nat.repr (k + 2) ++ ")" ++ resolverExt name) := by
  rw [List.replicate_succ]
  simp only [resolveAll, getUniqueFilename_fresh]
  rw [resolveAll_replicate_repeat name n 1 (by omega)]
  congr 1
  apply List.map_congr_left
  intro k _
  have h3 : 1 + k + 1 = k + 2 := by omega
  rw [h3]

/-! ### Claim C4 (confirmed) -/

/-- C4: after `exec`, a non-zero exit code always makes
`convertToCDQuality` fail with the error carrying the source filename and
the exit code; it is never silently ignored. -/
theorem C4_exit_code_checked (fileCounter : ℕ) (used : List (String × ℕ))
    (file : SimFile) (eng : EngineBehavior) (h : eng.exitCode ≠ 0) :
    (convertToCDQuality true fileCounter used file eng).1.result
      = .error (ffmpegFailedMsg file.name eng.exitCode) := by
  simp [convertToCDQuality, h]

/-- C4 witnessed at exit code 1. -/
theorem C4_exit_code_checked_witness :
    (1 : ℤ) ≠ 0 ∧
    (convertToCDQuality true 0 [] ⟨"a.mp3", "audio/mpeg", [1]⟩ ⟨1, [], []⟩).1.result
      = .error (ffmpegFailedMsg "a.mp3" 1) :=
  ⟨by decide, C4_exit_code_checked 0 [] ⟨"a.mp3", "audio/mpeg", [1]⟩ ⟨1, [], []⟩ (by decide)⟩

/-! ### Claim C5 (corrected) -/

/-- C5 counterexample: in an environment with WebAssembly available but
neither cross-origin isolation nor `SharedArrayBuffer`,
`checkBrowserSupport` reports unsupported and `loadFFmpeg` throws — the
absence of the shared-memory capability alone does make load fail, and no
fallback engine variant is attempted. -/
theorem C5_counterexample :
    (Env.mk true true false false "localhost" "http:").wasmDefined = true ∧
    (checkBrowserSupport ⟨true, true, false, false, "localhost", "http:"⟩).supported = false ∧
    (loadFFmpeg false ⟨true, true, false, false, "localhost", "http:"⟩ [] []).result
      = .error
          "SharedArrayBuffer requires specific server headers. Try running with: bunx vite --host" := by
  refine ⟨rfl, rfl, rfl⟩

/-- C5 amended: whenever the shared-memory capability is unavailable
(`crossOriginIsolated` absent or false, and `SharedArrayBuffer` undefined),
`checkBrowserSupport` reports unsupported even though WebAssembly exists,
and `loadFFmpeg` fails with that message: there is no single-worker
fallback — the loader always uses the one baseline engine bundle and treats
the shared-memory capability as a hard precondition. -/
theorem C5_no_fallback_amended (env : Env) (core wasm : List (ℕ × ℕ))
    (hw : env.wasmDefined = true) (hcoi : env.coiDefined = false ∨ env.coi = false)
    (hsab : env.sabDefined = false) :
    (checkBrowserSupport env).supported = false ∧
    (loadFFmpeg false env core wasm).result = .error (checkBrowserSupport env).message := by
  have hs : (checkBrowserSupport env).supported = false := by
    unfold checkBrowserSupport
    rcases hcoi with h | h <;> simp only [hw, h, hsab] <;> split <;> simp <;> split <;> simp
  exact ⟨hs, by simp [loadFFmpeg, hs]⟩

/-- C5 amended, witnessed at a non-isolated environment. -/
theorem C5_no_fallback_amended_witness :
    (checkBrowserSupport ⟨true, false, false, false, "example.com", "https:"⟩).supported = false ∧
    (loadFFmpeg false ⟨true, false, false, false, "example.com", "https:"⟩ [] []).result
      = .error (checkBrowserSupport ⟨true, false, false, false, "example.com", "https:"⟩).message :=
  C5_no_fallback_amended ⟨true, false, false, false, "example.com", "https:"⟩ [] []
    rfl (Or.inl rfl) rfl

/-! ### Claim C8 (confirmed) -/

/-- C8: `loadFFmpeg` is idempotent: a first successful call leaves the
`loaded` flag set, and every call made with the flag set returns
immediately — no progress events, no fetches, success. -/
theorem C8_load_idempotent (env : Env) (core wasm : List (ℕ × ℕ))
    (h : (loadFFmpeg false env core wasm).result = .ok ()) :
    (loadFFmpeg false env core wasm).loadedAfter = true ∧
    ∀ (env2 : Env) (core2 wasm2 : List (ℕ × ℕ)),
      loadFFmpeg true env2 core2 wasm2
        = { events := [], fetches := [], loadedAfter := true, result := .ok () } := by
  constructor
  · by_cases hs : (checkBrowserSupport env).supported = false
    · simp [loadFFmpeg, hs] at h
    · simp [loadFFmpeg, hs]
  · intro env2 core2 wasm2
    simp [loadFFmpeg]

/-- C8 witnessed at a supported environment. -/
theorem C8_load_idempotent_witness :
    ((loadFFmpeg false ⟨true, true, true, true, "h", "https:"⟩ [] []).result = .ok ()) ∧
    (loadFFmpeg true ⟨true, true, true, true, "h", "https:"⟩ [] []
      = { events := [], fetches := [], loadedAfter := true, result := .ok () }) :=
  ⟨by decide,
    (C8_load_idempotent ⟨true, true, true, true, "h", "https:"⟩ [] [] (by decide)).2
      ⟨true, true, true, true, "h", "https:"⟩ [] []⟩

/-! ### Claim C10 (confirmed) -/

/-- C10: for a file whose name contains no dot, `isAudioFile` returns true
exactly when the declared media type begins with "audio/": the extension
test cannot succeed because `lastIndexOf('.')` is -1 and `slice(-1)` keeps
only the final character of the (lowercased) name, which is never equal to
any multi-character entry of the extension list. -/
theorem C10_no_dot_audio (file : SimFile) (h : '.' ∉ file.name.data) :
    isAudioFile file = jsStartsWith file.mime "audio/" := by
  have hidx : jsLastIndexOf file.name '.' = -1 := jsLastIndexOf_of_not_mem h
  rw [show isAudioFile file
      = (jsStartsWith file.mime "audio/"
          || audioExtensions.contains
              (jsSlice1 (jsToLowerCase file.name) (jsLastIndexOf file.name '.'))) from rfl]
  rw [hidx]
  have hlen : (jsSlice1 (jsToLowerCase file.name) (-1)).data.length ≤ 1 :=
    jsSlice1_neg_one_length _
  cases hcb : audioExtensions.contains (jsSlice1 (jsToLowerCase file.name) (-1)) with
  | false => rw [Bool.or_false]
  | true =>
    exfalso
    have hmem : jsSlice1 (jsToLowerCase file.name) (-1) ∈ audioExtensions :=
      List.mem_of_elem_eq_true hcb
    have h4 := audioExtensions_min_length _ hmem
    omega

/-- C10 witnessed at a dotless filename with an audio media type. -/
theorem C10_no_dot_audio_witness :
    ('.' ∉ ("noext" : String).data) ∧
    isAudioFile ⟨"noext", "audio/mpeg", []⟩ = jsStartsWith "audio/mpeg" "audio/" :=
  ⟨by decide, C10_no_dot_audio ⟨"noext", "audio/mpeg", []⟩ (by decide)⟩

/-! ### Progress handler lemmas (claim C7) -/

theorem runProgressHandler_state (fracs : List ℚ) :
    ∀ last : ℚ, (runProgressHandler last fracs).2
      = (((runProgressHandler last fracs).1).map Prod.fst).getLastD last := by
  induction fracs with
  | nil => intro last; rfl
  | cons p rest ih =>
    intro last
    by_cases hx : last < 10 + (jsRound (p * 80) : ℚ)
    · simp only [runProgressHandler, if_pos hx, List.map_cons, List.getLastD_cons]
      exact ih _
    · simp only [runProgressHandler, if_neg hx]
      exact ih last

theorem runProgressHandler_cons (x : ℚ) (l : List ℚ) (la : ℚ) :
    runProgressHandler la (x :: l)
      = (if la < 10 + (jsRound (x * 80) : ℚ) then
          ((10 + (jsRound (x * 80) : ℚ),
            "Converting: " ++ toString (jsRound (x * 100)) ++ "%")
              :: (runProgressHandler (10 + (jsRound (x * 80) : ℚ)) l).1,
            (runProgressHandler (10 + (jsRound (x * 80) : ℚ)) l).2)
         else runProgressHandler la l) := rfl

theorem runProgressHandler_nil (la : ℚ) : runProgressHandler la [] = ([], la) := rfl

theorem runProgressHandler_append_one (p : ℚ) (xs : List ℚ) :
    ∀ last : ℚ, runProgressHandler last (xs ++ [p])
      = (if (runProgressHandler last xs).2 < 10 + (jsRound (p * 80) : ℚ)
         then ((runProgressHandler last xs).1
                ++ [(10 + (jsRound (p * 80) : ℚ),
                     "Converting: " ++ toString (jsRound (p * 100)) ++ "%")],
               10 + (jsRound (p * 80) : ℚ))
         else runProgressHandler last xs) := by
  induction xs with
  | nil =>
    intro last
    simp [List.nil_append, runProgressHandler_cons, runProgressHandler_nil]
  | cons x rest ih =>
    intro last
    simp only [List.cons_append, runProgressHandler_cons, ih]
    by_cases hx : last < 10 + (jsRound (x * 80) : ℚ)
    · by_cases hy : (runProgressHandler (10 + (jsRound (x * 80) : ℚ)) rest).2
          < 10 + (jsRound (p * 80) : ℚ)
      · simp [hx, hy]
      · simp [hx, hy]
    · simp [hx]

theorem jsRound_eval (q : ℚ) (n : ℤ) (h1 : (n : ℚ) ≤ q + 1 / 2) (h2 : q + 1 / 2 < n + 1) :
    jsRound q = n := by
  rw [jsRound]
  exact Int.floor_eq_iff.mpr ⟨h1, by exact_mod_cast h2⟩

theorem jsRound_band {p : ℚ} (h0 : 0 ≤ p) (h1 : p ≤ 1) :
    (0 : ℤ) ≤ jsRound (p * 80) ∧ jsRound (p * 80) ≤ 80 := by
  constructor
  · rw [jsRound, Int.le_floor]
    push_cast
    linarith
  · have hlt : jsRound (p * 80) < 81 := by
      rw [jsRound, Int.floor_lt]
      push_cast
      linarith
    omega

/-! ### Claim C7 (corrected) -/

/-- C7 counterexample: the claim says a remapped engine value is forwarded
only if strictly greater than the last value the unit forwarded.  With one
engine event at fraction 1/20 the unit's `onProgress` percents are
`[10, 15, 14, 90, 100]`: the remapped value 14 is forwarded to the caller
right after the unit's own direct 15% emission, and 14 is not greater
than 15 — the handler compares against its private `lastProgress`
(still 10), which the direct emissions never update. -/
theorem C7_counterexample :
    ((convertToCDQuality true 0 [] ⟨"a.mp3", "audio/mpeg", [1]⟩
        ⟨0, [1 / 20], [7]⟩).1.progress.map Prod.fst = [10, 15, 14, 90, 100]) ∧
    ¬ ((15 : ℚ) < 14) := by
  have h4 : jsRound ((1 : ℚ) / 20 * 80) = 4 := jsRound_eval _ 4 (by norm_num) (by norm_num)
  constructor
  · simp only [convertToCDQuality, runProgressHandler_cons, runProgressHandler, h4]
    norm_num
  · norm_num

/-- C7 amended: during `exec`, each engine fraction p ∈ [0,1] is remapped
to `10 + round(80·p)`, which lies in the [10, 90] band, and the handler
forwards it if and only if it is strictly greater than the last value the
handler itself forwarded (10 when it has forwarded nothing — the value of
the unit's initial emission); the unit's direct 15% emission does not
raise that threshold. -/
theorem C7_handler_amended (fracs : List ℚ) (hb : ∀ p ∈ fracs, 0 ≤ p ∧ p ≤ 1)
    (i : ℕ) (hi : i < fracs.length) :
    (10 ≤ 10 + (jsRound (fracs.get ⟨i, hi⟩ * 80) : ℚ)
      ∧ 10 + (jsRound (fracs.get ⟨i, hi⟩ * 80) : ℚ) ≤ 90) ∧
    forwardedPcts (fracs.take (i + 1))
      = (if (forwardedPcts (fracs.take i)).getLastD 10
              < 10 + (jsRound (fracs.get ⟨i, hi⟩ * 80) : ℚ)
         then forwardedPcts (fracs.take i) ++ [10 + (jsRound (fracs.get ⟨i, hi⟩ * 80) : ℚ)]
         else forwardedPcts (fracs.take i)) := by
  have hp := hb _ (fracs.get_mem i hi)
  have hband := jsRound_band hp.1 hp.2
  have hc1 : (0 : ℚ) ≤ ((jsRound (fracs.get ⟨i, hi⟩ * 80) : ℤ) : ℚ) := by
    exact_mod_cast hband.1
  have hc2 : ((jsRound (fracs.get ⟨i, hi⟩ * 80) : ℤ) : ℚ) ≤ 80 := by
    exact_mod_cast hband.2
  refine ⟨⟨by linarith, by linarith⟩, ?_⟩
  have htake : fracs.take (i + 1) = fracs.take i ++ [fracs.get ⟨i, hi⟩] := by
    rw [List.take_succ]
    congr
    rw [List.getElem?_eq_getElem hi]
    rfl
  rw [htake]
  unfold forwardedPcts
  rw [runProgressHandler_append_one]
  rw [← runProgressHandler_state]
  split
  · simp
  · rfl

/-- C7 amended, witnessed at the single fraction 1/2 (remapped to 50,
forwarded since 50 > 10). -/
theorem C7_handler_amended_witness :
    (∀ p ∈ [(1 : ℚ) / 2], 0 ≤ p ∧ p ≤ 1) ∧
    ((10 ≤ 10 + (jsRound (([(1 : ℚ) / 2].get ⟨0, by decide⟩) * 80) : ℚ)
        ∧ 10 + (jsRound (([(1 : ℚ) / 2].get ⟨0, by decide⟩) * 80) : ℚ) ≤ 90) ∧
      forwardedPcts ([(1 : ℚ) / 2].take (0 + 1))
        = (if (forwardedPcts ([(1 : ℚ) / 2].take 0)).getLastD 10
                < 10 + (jsRound (([(1 : ℚ) / 2].get ⟨0, by decide⟩) * 80) : ℚ)
           then forwardedPcts ([(1 : ℚ) / 2].take 0)
                  ++ [10 + (jsRound (([(1 : ℚ) / 2].get ⟨0, by decide⟩) * 80) : ℚ)]
           else forwardedPcts ([(1 : ℚ) / 2].take 0))) :=
  ⟨by intro q hq; rw [List.mem_singleton] at hq; rw [hq]; norm_num,
    C7_handler_amended [(1 : ℚ) / 2]
      (by intro q hq; rw [List.mem_singleton] at hq; rw [hq]; norm_num) 0 (by decide)⟩

/-! ### Transcode-unit evaluation lemmas -/

theorem convert_error (c : ℕ) (u : List (String × ℕ)) (f : SimFile) (e : EngineBehavior)
    (h : e.exitCode ≠ 0) :
    (convertToCDQuality true c u f e).1.result = .error (ffmpegFailedMsg f.name e.exitCode) := by
  simp [convertToCDQuality, h]

theorem convert_ok (c : ℕ) (u : List (String × ℕ)) (f : SimFile) (e : EngineBehavior)
    (h : e.exitCode = 0) :
    (convertToCDQuality true c u f e).1.result
      = .ok { blob := e.output, blobType := "audio/wav",
              filename := (getUniqueFilename u (stripExtRegex f.name ++ ".wav")).1,
              originalName := f.name } := by
  simp [convertToCDQuality, h]

theorem convert_progress_ok (c : ℕ) (u : List (String × ℕ)) (f : SimFile) (e : EngineBehavior)
    (h : e.exitCode = 0) :
    (convertToCDQuality true c u f e).1.progress
      = ((10, "Loading " ++ f.name ++ "...")
          :: (15, "Converting to 44.1kHz 16-bit stereo WAV...")
          :: (runProgressHandler 10 e.fracs).1)
        ++ [(90, "Reading output..."), (100, "Done")] := by
  simp [convertToCDQuality, h]

theorem convert_counter (c : ℕ) (u : List (String × ℕ)) (f : SimFile) (e : EngineBehavior) :
    (convertToCDQuality true c u f e).2.1 = c + 1 := by
  by_cases h : e.exitCode = 0 <;> simp [convertToCDQuality, h]

theorem convert_names (c : ℕ) (u : List (String × ℕ)) (f : SimFile) (e : EngineBehavior) :
    (convertToCDQuality true c u f e).1.names
      = some (mkInputName (c + 1) (inputExtOf f.name), mkOutputName (c + 1)) := by
  by_cases h : e.exitCode = 0 <;> simp [convertToCDQuality, h]

/-! ### Batch-loop evaluation lemmas -/

theorem runFiles_nil (n c : ℕ) (u : List (String × ℕ)) (i : ℕ) :
    runFiles n c u i [] = ([], [], c, .ok []) := rfl

theorem runFiles_cons_error (n c : ℕ) (u : List (String × ℕ)) (i : ℕ)
    (f : SimFile) (eng : EngineBehavior) (rest : List (SimFile × EngineBehavior))
    (h : eng.exitCode ≠ 0) :
    runFiles n c u i ((f, eng) :: rest)
      = ((convertToCDQuality true c u f eng).1.progress.map
            (fun e => (overallPct n i e.1, e.2, fileSubtext n i))
          ++ [(0, "Conversion failed", ffmpegFailedMsg f.name eng.exitCode)],
         [f.name], c + 1, .error (ffmpegFailedMsg f.name eng.exitCode)) := by
  simp only [runFiles]
  rw [convert_error c u f eng h, convert_counter c u f eng]

theorem runFiles_cons_ok (n c : ℕ) (u : List (String × ℕ)) (i : ℕ)
    (f : SimFile) (eng : EngineBehavior) (rest : List (SimFile × EngineBehavior))
    (h : eng.exitCode = 0) :
    runFiles n c u i ((f, eng) :: rest)
      = ((convertToCDQuality true c u f eng).1.progress.map
            (fun e => (overallPct n i e.1, e.2, fileSubtext n i))
          ++ (runFiles n (c + 1) (convertToCDQuality true c u f eng).2.2 (i + 1) rest).1,
         f.name :: (runFiles n (c + 1) (convertToCDQuality true c u f eng).2.2 (i + 1) rest).2.1,
         (runFiles n (c + 1) (convertToCDQuality true c u f eng).2.2 (i + 1) rest).2.2.1,
         ((runFiles n (c + 1) (convertToCDQuality true c u f eng).2.2 (i + 1) rest).2.2.2).map
           (List.cons { blob := eng.output, blobType := "audio/wav",
                        filename := (getUniqueFilename u (stripExtRegex f.name ++ ".wav")).1,
                        originalName := f.name })) := by
  simp only [runFiles]
  rw [convert_ok c u f eng h, convert_counter c u f eng]

theorem runFiles_failfast :
    ∀ (files : List (SimFile × EngineBehavior)) (i : ℕ) (hi : i < files.length)
      (n c : ℕ) (u : List (String × ℕ)) (i0 : ℕ),
      (files.get ⟨i, hi⟩).2.exitCode ≠ 0 →
      (∀ j (hj : j < files.length), j < i → (files.get ⟨j, hj⟩).2.exitCode = 0) →
      (runFiles n c u i0 files).2.2.2
          = .error (ffmpegFailedMsg (files.get ⟨i, hi⟩).1.name (files.get ⟨i, hi⟩).2.exitCode)
        ∧ (runFiles n c u i0 files).2.1 = (files.take (i + 1)).map (fun fe => fe.1.name) := by
  intro files
  induction files with
  | nil => intro i hi; simp at hi
  | cons fe rest ih =>
    intro i hi n c u i0 hfail hok
    obtain ⟨f, eng⟩ := fe
    cases i with
    | zero =>
      rw [runFiles_cons_error n c u i0 f eng rest hfail]
      exact ⟨rfl, rfl⟩
    | succ j =>
      have h0 : eng.exitCode = 0 := hok 0 (by simp) (by omega)
      rw [runFiles_cons_ok n c u i0 f eng rest h0]
      have hj : j < rest.length := by simpa using hi
      obtain ⟨herr, hatt⟩ :=
        ih j hj n (c + 1) (convertToCDQuality true c u f eng).2.2 (i0 + 1)
          hfail (fun k hk hki => hok (k + 1) (by simpa using hk) (by omega))
      refine ⟨?_, ?_⟩
      · simp only [herr, Except.map, List.get_cons_succ]
      · simp only [hatt, List.take_succ_cons, List.map_cons]

theorem runFiles_all_ok :
    ∀ (files : List (SimFile × EngineBehavior)) (n c : ℕ) (u : List (String × ℕ)) (i0 : ℕ),
      (∀ fe ∈ files, fe.2.exitCode = 0) →
      ∃ results, (runFiles n c u i0 files).2.2.2 = .ok results := by
  intro files
  induction files with
  | nil => intro n c u i0 _; exact ⟨[], rfl⟩
  | cons fe rest ih =>
    intro n c u i0 hall
    obtain ⟨f, eng⟩ := fe
    have h0 : eng.exitCode = 0 := hall (f, eng) (List.mem_cons_self _ _)
    rw [runFiles_cons_ok n c u i0 f eng rest h0]
    obtain ⟨results, hres⟩ :=
      ih n (c + 1) (convertToCDQuality true c u f eng).2.2 (i0 + 1)
        (fun x hx => hall x (List.mem_cons_of_mem _ hx))
    exact ⟨{ blob := eng.output, blobType := "audio/wav",
             filename := (getUniqueFilename u (stripExtRegex f.name ++ ".wav")).1,
             originalName := f.name } :: results, by rw [hres]; rfl⟩

theorem getLast?_cons_append_right {α : Type} (a : α) (l1 l2 : List α) (h : l2 ≠ []) :
    (a :: (l1 ++ l2)).getLast? = l2.getLast? := by
  rw [show a :: (l1 ++ l2) = (a :: l1) ++ l2 from rfl]
  exact List.getLast?_append_of_ne_nil _ h

theorem getLast?_of_suffix_two {α : Type} : ∀ (l : List α) (x y : α),
    (l ++ [x, y]).getLast? = some y := by
  intro l x y
  rw [show l ++ [x, y] = (l ++ [x]) ++ [y] from by simp]
  exact List.getLast?_concat _

theorem runFiles_ok_events_last :
    ∀ (files : List (SimFile × EngineBehavior)) (n c : ℕ) (u : List (String × ℕ)) (i0 : ℕ),
      files ≠ [] →
      (∀ fe ∈ files, fe.2.exitCode = 0) →
      i0 + files.length = n →
      ((runFiles n c u i0 files).1).getLast?
        = some (overallPct n (n - 1) 100, "Done", fileSubtext n (n - 1)) := by
  intro files
  induction files with
  | nil => intro n c u i0 hne; exact absurd rfl hne
  | cons fe rest ih =>
    intro n c u i0 _ hall hlen
    obtain ⟨f, eng⟩ := fe
    have h0 : eng.exitCode = 0 := hall (f, eng) (List.mem_cons_self _ _)
    rw [runFiles_cons_ok n c u i0 f eng rest h0]
    cases rest with
    | nil =>
      have hi0 : i0 = n - 1 := by simp at hlen; omega
      rw [runFiles_nil]
      dsimp only
      rw [convert_progress_ok c u f eng h0]
      rw [List.append_nil, List.map_append]
      simp only [List.map_cons, List.map_nil]
      rw [getLast?_of_suffix_two]
      rw [hi0]
    | cons fe2 rest2 =>
      have hrec := ih n (c + 1) (convertToCDQuality true c u f eng).2.2 (i0 + 1)
        (by simp) (fun x hx => hall x (List.mem_cons_of_mem _ hx))
        (by simp at hlen ⊢; omega)
      have hne2 : (runFiles n (c + 1) (convertToCDQuality true c u f eng).2.2 (i0 + 1)
          (fe2 :: rest2)).1 ≠ [] := by
        intro hnil
        rw [hnil] at hrec
        simp at hrec
      rw [List.getLast?_append_of_ne_nil _ hne2]
      exact hrec

theorem overallPct_last (n : ℕ) (hn : 0 < n) : overallPct n (n - 1) 100 = 100 := by
  unfold overallPct
  have hq : (n : ℚ) ≠ 0 := Nat.cast_ne_zero.mpr (by omega)
  have hcast : ((n - 1 : ℕ) : ℚ) = (n : ℚ) - 1 := by
    rw [Nat.cast_sub (by omega : 1 ≤ n)]
    simp
  rw [hcast]
  field_simp
  ring

/-! ### Claim C3 (confirmed) -/

/-- C3: when the transcode of the file at position i fails (non-zero exit
code, all earlier files succeeding), the whole batch run surfaces that
file's error (which carries its name), `showResults` is never called (zero
results are exposed), and the files after position i are never passed to
the converter: exactly the first i+1 files are attempted. -/
theorem C3_failfast (ffmpegLoaded : Bool) (env : Env) (core wasm : List (ℕ × ℕ))
    (fileCounter : ℕ) (files : List (SimFile × EngineBehavior)) (i : ℕ)
    (hi : i < files.length)
    (hload : (loadFFmpeg ffmpegLoaded env core wasm).result = .ok ())
    (hfail : (files.get ⟨i, hi⟩).2.exitCode ≠ 0)
    (hok : ∀ j (hj : j < files.length), j < i → (files.get ⟨j, hj⟩).2.exitCode = 0) :
    (startConversion ffmpegLoaded env core wasm fileCounter files).result
        = .error (ffmpegFailedMsg (files.get ⟨i, hi⟩).1.name (files.get ⟨i, hi⟩).2.exitCode)
      ∧ (startConversion ffmpegLoaded env core wasm fileCounter files).shown = none
      ∧ (startConversion ffmpegLoaded env core wasm fileCounter files).attempted
          = (files.take (i + 1)).map (fun fe => fe.1.name) := by
  have hne : files.isEmpty = false := by
    cases files with
    | nil => simp at hi
    | cons a l => rfl
  obtain ⟨herr, hatt⟩ :=
    runFiles_failfast files i hi files.length fileCounter [] 0 hfail hok
  simp only [startConversion, hne, Bool.false_eq_true, if_false, hload, herr, hatt]
  exact ⟨trivial, trivial, trivial⟩

/-- C3 witnessed at a two-file batch whose second file fails with exit
code 1: the error names "b.mp3", nothing is shown, and exactly the first
two files were attempted (there is no third file to skip here; the general
theorem covers skipping). -/
theorem C3_failfast_witness :
    ((startConversion true ⟨true, true, true, true, "h", "https:"⟩ [] [] 0
        [(⟨"a.mp3", "audio/mpeg", [1]⟩, ⟨0, [], [7]⟩),
         (⟨"b.mp3", "audio/mpeg", [2]⟩, ⟨1, [], []⟩),
         (⟨"c.mp3", "audio/mpeg", [3]⟩, ⟨0, [], [9]⟩)]).result
        = .error (ffmpegFailedMsg "b.mp3" 1))
      ∧ ((startConversion true ⟨true, true, true, true, "h", "https:"⟩ [] [] 0
          [(⟨"a.mp3", "audio/mpeg", [1]⟩, ⟨0, [], [7]⟩),
           (⟨"b.mp3", "audio/mpeg", [2]⟩, ⟨1, [], []⟩),
           (⟨"c.mp3", "audio/mpeg", [3]⟩, ⟨0, [], [9]⟩)]).shown = none)
      ∧ ((startConversion true ⟨true, true, true, true, "h", "https:"⟩ [] [] 0
          [(⟨"a.mp3", "audio/mpeg", [1]⟩, ⟨0, [], [7]⟩),
           (⟨"b.mp3", "audio/mpeg", [2]⟩, ⟨1, [], []⟩),
           (⟨"c.mp3", "audio/mpeg", [3]⟩, ⟨0, [], [9]⟩)]).attempted
          = ["a.mp3", "b.mp3"]) :=
  C3_failfast true ⟨true, true, true, true, "h", "https:"⟩ [] [] 0
    [(⟨"a.mp3", "audio/mpeg", [1]⟩, ⟨0, [], [7]⟩),
     (⟨"b.mp3", "audio/mpeg", [2]⟩, ⟨1, [], []⟩),
     (⟨"c.mp3", "audio/mpeg", [3]⟩, ⟨0, [], [9]⟩)] 1 (by decide) rfl (by decide)
    (by intro j hj hj1
        have hj0 : j = 0 := by omega
        subst hj0
        rfl)

/-! ### Claim C6 (corrected) -/

/-- C6 counterexample: a successful single-file batch (engine progress
fraction 1/20 arriving during `exec`) emits the overall percent sequence
[0, 37, 81/2, 199/5, 93, 100], which is not non-decreasing: the engine
event remaps to 39.8% overall after the fixed 15%-stage update already
reported 40.5%. -/
theorem C6_counterexample :
    ((startConversion true ⟨true, true, true, true, "h", "https:"⟩ [] [] 0
        [(⟨"a.mp3", "audio/mpeg", [1]⟩, ⟨0, [1 / 20], [7]⟩)]).result
      = .ok [{ blob := [7], blobType := "audio/wav",
               filename := "a.wav", originalName := "a.mp3" }]) ∧
    ¬ List.Chain' (· ≤ ·)
      ((startConversion true ⟨true, true, true, true, "h", "https:"⟩ [] [] 0
          [(⟨"a.mp3", "audio/mpeg", [1]⟩, ⟨0, [1 / 20], [7]⟩)]).overall.map
        (fun e => e.1)) := by
  have h4 : jsRound ((1 : ℚ) / 20 * 80) = 4 := jsRound_eval _ 4 (by norm_num) (by norm_num)
  have hrun := runFiles_cons_ok 1 0 [] 0 ⟨"a.mp3", "audio/mpeg", [1]⟩ ⟨0, [1 / 20], [7]⟩ [] rfl
  have hprog := convert_progress_ok 0 [] ⟨"a.mp3", "audio/mpeg", [1]⟩ ⟨0, [1 / 20], [7]⟩ rfl
  constructor
  · rfl
  · have hres : (runFiles
        [((⟨"a.mp3", "audio/mpeg", [1]⟩ : SimFile), (⟨0, [1 / 20], [7]⟩ : EngineBehavior))].length
        0 [] 0
        [(⟨"a.mp3", "audio/mpeg", [1]⟩, (⟨0, [1 / 20], [7]⟩ : EngineBehavior))]).2.2.2
        = .ok [{ blob := [7], blobType := "audio/wav",
                 filename := "a.wav", originalName := "a.mp3" }] := by
      rfl
    have hmap : ((startConversion true ⟨true, true, true, true, "h", "https:"⟩ [] [] 0
          [(⟨"a.mp3", "audio/mpeg", [1]⟩, ⟨0, [1 / 20], [7]⟩)]).overall.map
        (fun e => e.1)) = [0, 37, 81 / 2, 199 / 5, 93, 100] := by
      simp only [startConversion, loadFFmpeg]
      rw [hres]
      simp only [List.length_cons, List.length_nil]
      simp only [hrun, runFiles_nil, hprog, runProgressHandler_cons,
        runProgressHandler_nil, h4]
      norm_num [overallPct]
    rw [hmap]
    intro hch
    rw [List.chain'_cons, List.chain'_cons, List.chain'_cons] at hch
    exact absurd hch.2.2.1 (by norm_num)

/-- C6 amended: on a successful batch of n ≥ 1 files, the overall-progress
callback's final percent value is 100 (the claimed monotonicity of the
sequence does not hold, per the counterexample). -/
theorem C6_final_progress_amended (ffmpegLoaded : Bool) (env : Env)
    (core wasm : List (ℕ × ℕ)) (fileCounter : ℕ)
    (files : List (SimFile × EngineBehavior)) (hn : 0 < files.length)
    (hload : (loadFFmpeg ffmpegLoaded env core wasm).result = .ok ())
    (hall : ∀ fe ∈ files, fe.2.exitCode = 0) :
    ((startConversion ffmpegLoaded env core wasm fileCounter files).overall.map
        (fun e => e.1)).getLast? = some 100 := by
  have hne : files ≠ [] := by intro h; rw [h] at hn; simp at hn
  have hneb : files.isEmpty = false := by
    cases files with
    | nil => simp at hn
    | cons a l => rfl
  obtain ⟨results, hres⟩ := runFiles_all_ok files files.length fileCounter [] 0 hall
  have hlast := runFiles_ok_events_last files files.length fileCounter [] 0 hne hall
    (by omega)
  have hBne : (runFiles files.length fileCounter [] 0 files).1 ≠ [] := by
    intro h
    rw [h] at hlast
    simp at hlast
  simp only [startConversion, hneb, Bool.false_eq_true, if_false, hload, hres]
  simp only [List.map_cons, List.map_nil, List.map_append, List.cons_append,
    List.nil_append]
  rw [getLast?_cons_append_right _ _ _ (by simpa using hBne)]
  rw [List.getLast?_map, hlast]
  simp [overallPct_last files.length hn]

/-- C6 amended, witnessed at a successful single-file batch. -/
theorem C6_final_progress_amended_witness :
    ((startConversion true ⟨true, true, true, true, "h", "https:"⟩ [] [] 0
        [(⟨"a.mp3", "audio/mpeg", [1]⟩, ⟨0, [], [7]⟩)]).overall.map
      (fun e => e.1)).getLast? = some 100 :=
  C6_final_progress_amended true ⟨true, true, true, true, "h", "https:"⟩ [] [] 0
    [(⟨"a.mp3", "audio/mpeg", [1]⟩, ⟨0, [], [7]⟩)] (by decide) rfl
    (by intro fe hfe
        rw [List.mem_singleton] at hfe
        rw [hfe])

/-! ### Decimal rendering (Nat.repr) is injective and dot-free

`mkInputName`/`mkOutputName` embed the counter value through `Nat.repr`;
the claim C9 needs that two distinct counter values always render to
distinct virtual filenames. -/

theorem toDigitsCore_eq_digits :
    ∀ (fuel n : ℕ) (ds : List Char), n ≠ 0 → n ≤ fuel →
      Nat.toDigitsCore 10 fuel n ds
        = ((Nat.digits 10 n).reverse.map Nat.digitChar) ++ ds := by
  intro fuel
  induction fuel with
  | zero => intro n ds hn hle; omega
  | succ fuel ih =>
    intro n ds hn hle
    have hdig : Nat.digits 10 n = n % 10 :: Nat.digits 10 (n / 10) :=
      Nat.digits_def' (by norm_num) (Nat.pos_of_ne_zero hn)
    by_cases h10 : n / 10 = 0
    · have hstep : Nat.toDigitsCore 10 (fuel + 1) n ds = Nat.digitChar (n % 10) :: ds := by
        simp [Nat.toDigitsCore, h10]
      rw [hstep, hdig, h10]
      simp
    · have hstep : Nat.toDigitsCore 10 (fuel + 1) n ds
          = Nat.toDigitsCore 10 fuel (n / 10) (Nat.digitChar (n % 10) :: ds) := by
        simp [Nat.toDigitsCore, h10]
      have hlt : n / 10 < n := Nat.div_lt_self (Nat.pos_of_ne_zero hn) (by norm_num)
      rw [hstep, ih (n / 10) _ h10 (by omega), hdig]
      simp

theorem toDigits_eq_digits (n : ℕ) (hn : n ≠ 0) :
    Nat.toDigits 10 n = (Nat.digits 10 n).reverse.map Nat.digitChar := by
  unfold Nat.toDigits
  rw [toDigitsCore_eq_digits (n + 1) n [] hn (by omega)]
  simp

theorem digitChar_inj_lt : ∀ a < 10, ∀ b < 10, Nat.digitChar a = Nat.digitChar b → a = b := by
  decide

theorem digitChar_ne_dot : ∀ a < 10, Nat.digitChar a ≠ '.' := by
  decide

theorem map_digitChar_inj :
    ∀ (l1 l2 : List ℕ), (∀ x ∈ l1, x < 10) → (∀ x ∈ l2, x < 10) →
      l1.map Nat.digitChar = l2.map Nat.digitChar → l1 = l2 := by
  intro l1
  induction l1 with
  | nil =>
    intro l2 _ _ h
    cases l2 with
    | nil => rfl
    | cons b m => simp at h
  | cons a l ih =>
    intro l2 h1 h2 h
    cases l2 with
    | nil => simp at h
    | cons b m =>
      simp only [List.map_cons, List.cons.injEq] at h
      have hab : a = b :=
        digitChar_inj_lt a (h1 a (List.mem_cons_self a l)) b (h2 b (List.mem_cons_self b m)) h.1
      rw [hab, ih m (fun x hx => h1 x (List.mem_cons_of_mem a hx))
        (fun x hx => h2 x (List.mem_cons_of_mem b hx)) h.2]

theorem toDigits_ten_inj {m n : ℕ} (h : Nat.toDigits 10 m = Nat.toDigits 10 n) : m = n := by
  by_cases hm : m = 0 <;> by_cases hn : n = 0
  · rw [hm, hn]
  · exfalso
    rw [hm, toDigits_eq_digits n hn] at h
    have hlen := congrArg List.length h
    simp at hlen
    obtain ⟨d, hd⟩ := List.length_eq_one.mp hlen.symm
    rw [hd] at h
    simp at h
    have hdlt : d < 10 := Nat.digits_lt_base (by norm_num) (by rw [hd]; exact List.mem_singleton_self d)
    have hchar : Nat.digitChar d = '0' := by
      have h0 : Nat.toDigits 10 0 = ['0'] := rfl
      rw [h0] at h
      simpa using h.symm
    have hd0 : d = 0 := digitChar_inj_lt d hdlt 0 (by norm_num) (by rw [hchar]; rfl)
    have := Nat.ofDigits_digits 10 n
    rw [hd, hd0] at this
    simp [Nat.ofDigits] at this
    exact hn this.symm
  · exfalso
    rw [hn, toDigits_eq_digits m hm] at h
    have hlen := congrArg List.length h
    simp at hlen
    obtain ⟨d, hd⟩ := List.length_eq_one.mp hlen
    rw [hd] at h
    simp at h
    have hdlt : d < 10 := Nat.digits_lt_base (by norm_num) (by rw [hd]; exact List.mem_singleton_self d)
    have hchar : Nat.digitChar d = '0' := by
      have h0 : Nat.toDigits 10 0 = ['0'] := rfl
      rw [h0] at h
      simpa using h
    have hd0 : d = 0 := digitChar_inj_lt d hdlt 0 (by norm_num) (by rw [hchar]; rfl)
    have := Nat.ofDigits_digits 10 m
    rw [hd, hd0] at this
    simp [Nat.ofDigits] at this
    exact hm this.symm
  · rw [toDigits_eq_digits m hm, toDigits_eq_digits n hn] at h
    have h1 : (Nat.digits 10 m).reverse = (Nat.digits 10 n).reverse :=
      map_digitChar_inj _ _
        (fun x hx => Nat.digits_lt_base (by norm_num) (List.mem_reverse.mp hx))
        (fun x hx => Nat.digits_lt_base (by norm_num) (List.mem_reverse.mp hx)) h
    have h2 : Nat.digits 10 m = Nat.digits 10 n := by
      have := congrArg List.reverse h1
      simpa using this
    have h3 := congrArg (Nat.ofDigits 10) h2
    rwa [Nat.ofDigits_digits, Nat.ofDigits_digits] at h3

theorem repr_data_eq_toDigits (n : ℕ) : (Nat.repr n).data = Nat.toDigits 10 n := rfl

theorem repr_nat_inj {m n : ℕ} (h : (Nat.repr m).data = (Nat.repr n).data) : m = n :=
  toDigits_ten_inj (by rwa [repr_data_eq_toDigits, repr_data_eq_toDigits] at h)

theorem repr_no_dot (n : ℕ) : ∀ c ∈ (Nat.repr n).data, c ≠ '.' := by
  intro c hc
  rw [repr_data_eq_toDigits] at hc
  by_cases hn : n = 0
  · rw [hn] at hc
    have : c ∈ ['0'] := hc
    rw [List.mem_singleton] at this
    rw [this]
    decide
  · rw [toDigits_eq_digits n hn] at hc
    rw [List.mem_map] at hc
    obtain ⟨d, hd, hdc⟩ := hc
    rw [← hdc]
    exact digitChar_ne_dot d (Nat.digits_lt_base (by norm_num) (List.mem_reverse.mp hd))

/-! ### Virtual-name injectivity -/

/-- The shape of every extension string `convertToCDQuality` appends to an
internal input name: empty, or a dot followed by anything. -/
def ValidExt (e : String) : Prop :=
  e = "" ∨ ∃ rest, e.data = '.' :: rest

theorem jsLastIndexOfAux_mem {c : Char} :
    ∀ l : List Char, c ∈ l →
      ∃ k : ℕ, jsLastIndexOfAux c l = (k : Int) ∧ l.get? k = some c := by
  intro l
  induction l with
  | nil => intro h; simp at h
  | cons x xs ih =>
    intro hmem
    by_cases hx : c ∈ xs
    · obtain ⟨k, hval, hget⟩ := ih hx
      refine ⟨k + 1, ?_, by simpa using hget⟩
      simp only [jsLastIndexOfAux, hval]
      rw [if_pos (by positivity : ((k : Int)) ≥ 0)]
      push_cast
      ring
    · have hxc : x = c := by
        rcases List.mem_cons.mp hmem with h | h
        · exact h.symm
        · exact absurd h hx
      have hnone : jsLastIndexOfAux c xs = -1 := jsLastIndexOfAux_of_not_mem hx
      refine ⟨0, ?_, by simp [hxc]⟩
      simp [jsLastIndexOfAux, hnone, hxc]

theorem inputExtOf_valid (name : String) : ValidExt (inputExtOf name) := by
  unfold inputExtOf
  by_cases hinc : jsIncludesChar name '.' = true
  · right
    have hmem : '.' ∈ name.data := by
      unfold jsIncludesChar at hinc
      exact List.mem_of_elem_eq_true hinc
    obtain ⟨k, hval, hget⟩ := jsLastIndexOfAux_mem name.data hmem
    obtain ⟨hklen, hgetk⟩ := List.get?_eq_some.mp hget
    refine ⟨name.data.drop (k + 1), ?_⟩
    rw [if_pos hinc]
    rw [show jsLastIndexOf name '.' = (k : Int) from hval]
    unfold jsSlice1 jsClampIndex
    rw [data_asString]
    rw [if_neg (by omega : ¬ ((k : Int) < 0))]
    rw [show min (Int.toNat (k : Int)) name.data.length = k from by
      simp only [Int.toNat_natCast]
      omega]
    rw [List.drop_eq_getElem_cons hklen]
    rw [show name.data[k] = '.' from hgetk]
  · left
    rw [if_neg hinc]

theorem takeWhile_dotless_append (l1 l2 : List Char)
    (h1 : ∀ c ∈ l1, c ≠ '.') (h2 : l2 = [] ∨ ∃ rest, l2 = '.' :: rest) :
    (l1 ++ l2).takeWhile (fun c => c != '.') = l1 := by
  induction l1 with
  | nil =>
    rcases h2 with rfl | ⟨rest, rfl⟩
    · rfl
    · simp [List.takeWhile_cons]
  | cons a l ih =>
    have ha : a ≠ '.' := h1 a (List.mem_cons_self _ _)
    simp only [List.cons_append, List.takeWhile_cons]
    simp [ha, ih (fun c hc => h1 c (List.mem_cons_of_mem a hc))]

theorem mkInputName_inj {a b : ℕ} {e1 e2 : String}
    (h1 : ValidExt e1) (h2 : ValidExt e2)
    (h : mkInputName a e1 = mkInputName b e2) : a = b := by
  have hd := congrArg String.data h
  simp only [mkInputName, String.data_append] at hd
  rw [List.append_assoc, List.append_assoc] at hd
  have hd2 := List.append_cancel_left hd
  have hval1 : e1.data = [] ∨ ∃ rest, e1.data = '.' :: rest := by
    rcases h1 with rfl | ⟨rest, hr⟩
    · left; rfl
    · right; exact ⟨rest, hr⟩
  have hval2 : e2.data = [] ∨ ∃ rest, e2.data = '.' :: rest := by
    rcases h2 with rfl | ⟨rest, hr⟩
    · left; rfl
    · right; exact ⟨rest, hr⟩
  have ht := congrArg (List.takeWhile (fun c => c != '.')) hd2
  rw [takeWhile_dotless_append _ _ (repr_no_dot a) hval1,
      takeWhile_dotless_append _ _ (repr_no_dot b) hval2] at ht
  exact repr_nat_inj ht

theorem mkOutputName_inj {a b : ℕ} (h : mkOutputName a = mkOutputName b) : a = b := by
  have hd := congrArg String.data h
  simp only [mkOutputName, String.data_append] at hd
  rw [List.append_assoc, List.append_assoc] at hd
  have hd2 := List.append_cancel_left hd
  have ht := congrArg (List.takeWhile (fun c => c != '.')) hd2
  rw [takeWhile_dotless_append _ _ (repr_no_dot a) (Or.inr ⟨['w', 'a', 'v'], rfl⟩),
      takeWhile_dotless_append _ _ (repr_no_dot b) (Or.inr ⟨['w', 'a', 'v'], rfl⟩)] at ht
  exact repr_nat_inj ht

theorem runUnits_cons (c : ℕ) (u : List (String × ℕ)) (f : SimFile) (eng : EngineBehavior)
    (rest : List (SimFile × EngineBehavior)) :
    runUnits c u ((f, eng) :: rest)
      = (convertToCDQuality true c u f eng).1
          :: runUnits (convertToCDQuality true c u f eng).2.1
              (convertToCDQuality true c u f eng).2.2 rest := rfl

theorem runUnits_names_structure :
    ∀ (units : List (SimFile × EngineBehavior)) (c : ℕ) (u : List (String × ℕ))
      (i : ℕ) (hi : i < (runUnits c u units).length),
      ∃ ext, ValidExt ext
        ∧ ((runUnits c u units).get ⟨i, hi⟩).names
            = some (mkInputName (c + i + 1) ext, mkOutputName (c + i + 1)) := by
  intro units
  induction units with
  | nil => intro c u i hi; simp [runUnits] at hi
  | cons fe rest ih =>
    intro c u i hi
    obtain ⟨f, eng⟩ := fe
    cases i with
    | zero =>
      refine ⟨inputExtOf f.name, inputExtOf_valid f.name, ?_⟩
      show (convertToCDQuality true c u f eng).1.names = _
      rw [convert_names]
    | succ j =>
      have hj : j < (runUnits (convertToCDQuality true c u f eng).2.1
          (convertToCDQuality true c u f eng).2.2 rest).length := by
        have h2 := hi
        rw [runUnits_cons] at h2
        simpa using h2
      obtain ⟨ext, hv, hnm⟩ :=
        ih (convertToCDQuality true c u f eng).2.1 (convertToCDQuality true c u f eng).2.2 j hj
      refine ⟨ext, hv, ?_⟩
      have hstep : ((runUnits c u ((f, eng) :: rest)).get ⟨j + 1, hi⟩)
          = (runUnits (convertToCDQuality true c u f eng).2.1
              (convertToCDQuality true c u f eng).2.2 rest).get ⟨j, hj⟩ := by
        simp [runUnits_cons]
      rw [hstep, hnm]
      rw [convert_counter]
      have harith : c + 1 + j + 1 = c + (j + 1) + 1 := by omega
      rw [harith]

/-! ### Claim C9 (confirmed) -/

/-- C9: any two distinct invocations of `convertToCDQuality` in one
process receive distinct internal virtual input names and distinct
internal virtual output names.  The process-wide `fileCounter` is bumped
synchronously at the top of each call (`++fileCounter` is a single
synchronous read-modify-write, so interleaved callers still observe a
strictly increasing id sequence, modelled by `runUnits`), and the rendered
names `input_<id><ext>` / `output_<id>.wav` are injective in the id
because the decimal id is dot-free and every appended extension is empty
or dot-initial. -/
theorem C9_unique_names (fileCounter : ℕ) (used : List (String × ℕ))
    (units : List (SimFile × EngineBehavior)) (i j : ℕ)
    (hi : i < (runUnits fileCounter used units).length)
    (hj : j < (runUnits fileCounter used units).length) (hij : i ≠ j)
    (inI outI inJ outJ : String)
    (hni : ((runUnits fileCounter used units).get ⟨i, hi⟩).names = some (inI, outI))
    (hnj : ((runUnits fileCounter used units).get ⟨j, hj⟩).names = some (inJ, outJ)) :
    inI ≠ inJ ∧ outI ≠ outJ := by
  obtain ⟨e1, hv1, h1⟩ := runUnits_names_structure units fileCounter used i hi
  obtain ⟨e2, hv2, h2⟩ := runUnits_names_structure units fileCounter used j hj
  rw [h1] at hni
  rw [h2] at hnj
  simp only [Option.some.injEq, Prod.mk.injEq] at hni hnj
  obtain ⟨hin1, hout1⟩ := hni
  obtain ⟨hin2, hout2⟩ := hnj
  rw [← hin1, ← hin2, ← hout1, ← hout2]
  constructor
  · intro hEq
    have := mkInputName_inj hv1 hv2 hEq
    omega
  · intro hEq
    have := mkOutputName_inj hEq
    omega

/-- C9 witnessed at two invocations on the same file name: ids 1 and 2
give distinct input names and distinct output names. -/
theorem C9_unique_names_witness :
    ("input_1.mp3" : String) ≠ "input_2.mp3"
      ∧ ("output_1.wav" : String) ≠ "output_2.wav" :=
  C9_unique_names 0 []
    [(⟨"a.mp3", "audio/mpeg", [1]⟩, ⟨0, [], [7]⟩),
     (⟨"a.mp3", "audio/mpeg", [1]⟩, ⟨0, [], [7]⟩)]
    0 1 (by decide) (by decide) (by decide)
    "input_1.mp3" "output_1.wav" "input_2.mp3" "output_2.wav" rfl rfl

end Suno2CD
